import Mathlib

/-!
Shallow embedding of the poeditor_mcp sync core: the diff engine
(`SyncManager.calculateSyncPlan` / `calculateTermUpdates` and its derived-field
helpers), the rate-limited executor (`POEditorClient.withRateLimit`), the batch
orchestrator (`POEditorClient.batchOperation`) and the execution coordinator
(`SyncManager.executeSync`).  JavaScript `Map` construction, string truthiness,
optional chaining and `Array.prototype.sort()` are modelled explicitly; machine
integers do not occur (all counters are unbounded in JS as used here).
-/

namespace PoeditorMcp

/-- Usage site of a detected key (`KeyUsage` in src types): file path, line,
column and surrounding code context. -/
structure KeyUsage where
  path : String
  line : Nat
  column : Nat
  context : String
deriving DecidableEq

/-- Local key record (`DetectedKey` in src types). -/
structure DetectedKey where
  key : String
  phrase : String
  files : List KeyUsage
  framework : String
  usage : String
  dynamic : Bool
  examples : List String
deriving DecidableEq

/-- Remote term snapshot (`POEditorTermResponse`).  `tags` is an `Option`
because the code reads it with optional chaining (`remoteKey.tags?.sort()`). -/
structure RemoteTerm where
  term : String
  context : String
  reference : String
  plural : String
  tags : Option (List String)
  comment : String
  created : String
  updated : String
deriving DecidableEq

/-- Add-candidate record pushed into `plan.addTerms` (`POEditorTerm`).  Field
types follow the values the code actually produces: `extractContext`,
`extractTags` and `generateComment` may return `undefined` (here `none`) while
`extractReference` always returns a string. -/
structure POEditorTerm where
  term : String
  context : Option String
  reference : String
  tags : Option (List String)
  comment : Option String
deriving DecidableEq

/-- Partial term update produced by `calculateTermUpdates`: a JS object that
holds exactly the assigned fields; an unassigned field is `none`. -/
structure TermUpdates where
  context : Option String
  reference : Option String
  tags : Option (List String)
  comment : Option String
deriving DecidableEq

/-- The empty partial update (`{}` in JS, `Object.keys(updates).length == 0`). -/
def TermUpdates.hasUpdates (u : TermUpdates) : Bool :=
  u.context.isSome || u.reference.isSome || u.tags.isSome || u.comment.isSome

/-- Plan statistics (`SyncPlan.stats`). -/
structure SyncStats where
  adds : Nat
  updates : Nat
  deletes : Nat
  missing : Nat
deriving DecidableEq

/-- Reconciliation plan (`SyncPlan`).  The per-language maps are association
lists in JS-object insertion order (the order of `includeLangs`).  `renameHints`
is always the empty array in `calculateSyncPlan` and is omitted. -/
structure SyncPlan where
  addTerms : List POEditorTerm
  updateTerms : List (String × TermUpdates)
  deleteTerms : List String
  missingTranslations : List (String × List String)
  obsoleteTranslations : List (String × List String)
  stats : SyncStats
deriving DecidableEq

/-- JS truthiness of an optional string: `undefined` and `""` are falsy. -/
def jsTruthyOpt (o : Option String) : Bool :=
  match o with
  | none => false
  | some s => s != ""

/-- Keep the first occurrence of each element, dropping later duplicates:
the behaviour of `[...new Set(xs)]` in JS. -/
def dedupFirst (l : List String) : List String :=
  l.foldl (fun acc x => if acc.contains x then acc else acc ++ [x]) []

/-- Model of `SyncManager.extractContext`: up to the first two non-empty usage
contexts joined with a visible separator, `undefined` when there are none. -/
def extractContext (key : DetectedKey) : Option String :=
  let contexts := ((key.files.map (fun f => f.context)).filter (fun c => c != "")).take 2
  if contexts.length > 0 then some (String.intercalate "\n---\n" contexts) else none

/-- Model of `SyncManager.extractReference`: the comma-joined list of up to
three distinct usage file paths.  The code has no emptiness branch, so the
result is always a string (the empty string when there are no files). -/
def extractReference (key : DetectedKey) : String :=
  String.intercalate ", " ((dedupFirst (key.files.map (fun f => f.path))).take 3)

/-- Directory names that produce feature tags in `extractTags`. -/
def relevantDirNames : List String :=
  ["components", "pages", "views", "layouts", "features"]

/-- Feature tag derived from one usage path in `extractTags`: the first path
segment whose lowercase form is a conventional directory name. -/
def pathTag (path : String) : Option String :=
  let parts := path.splitOn "/"
  match parts.filter (fun part => relevantDirNames.contains part.toLower) with
  | [] => none
  | p :: _ => some p

/-- Model of `SyncManager.extractTags`: framework tag, a `dynamic` marker, a
`usage:<pattern>` marker and up to two directory-derived tags, then
deduplicated via `[...new Set(tags)]`.  The framework tag is always pushed, so
the result is `some` for every input; the `Option` mirrors the declared
`string[] | undefined` return type. -/
def extractTags (key : DetectedKey) : Option (List String) :=
  let tags := [key.framework]
    ++ (if key.dynamic then ["dynamic"] else [])
    ++ (if key.usage != "" then ["usage:" ++ key.usage] else [])
    ++ (key.files.filterMap (fun f => pathTag f.path)).take 2
  if tags.length > 0 then some (dedupFirst tags) else none

/-- Model of `SyncManager.generateComment`: phrase note when it differs from
the key, usage-count note for multi-file keys, and up to two examples. -/
def generateComment (key : DetectedKey) : Option String :=
  let comments := (if key.phrase != "" && key.phrase != key.key
      then ["Phrase: \"" ++ key.phrase ++ "\""] else [])
    ++ (if key.files.length > 1
      then ["Used in " ++ toString key.files.length ++ " files"] else [])
    ++ (if key.examples.length > 0
      then ["Examples: " ++ String.intercalate ", " (key.examples.take 2)] else [])
  if comments.length > 0 then some (String.intercalate "; " comments) else none

/-- Canonical ascending sort used to model `Array.prototype.sort()` on string
arrays (ascending lexicographic order in JS). -/
def sortTags (l : List String) : List String :=
  l.insertionSort (fun a b => a ≤ b)

/-- Model of `SyncManager.calculateTermUpdates`: each field is assigned only
when the recomputed value is truthy (defined and non-empty) and differs from
the remote field; tags are compared after sorting both sides, where an
undefined remote tag array (`JSON.stringify(undefined)`) never equals the
stringified sorted local tags.  `newTags.sort()` in the source sorts the
array in place before `updates.tags = newTags`, so the value stored in the
tags field is the sorted list.  (The in-place sort of `remoteKey.tags` has no
further observable effect: the remote record is not read again after this
call within one plan computation.) -/
def calculateTermUpdates (localKey : DetectedKey) (remoteKey : RemoteTerm) : TermUpdates :=
  let contextUpd := match extractContext localKey with
    | some c => if c != "" && c != remoteKey.context then some c else none
    | none => none
  let newReference := extractReference localKey
  let referenceUpd :=
    if newReference != "" && newReference != remoteKey.reference then some newReference else none
  let tagsUpd := match extractTags localKey with
    | some ts =>
      if remoteKey.tags.map sortTags ≠ some (sortTags ts) then some (sortTags ts) else none
    | none => none
  let commentUpd := match generateComment localKey with
    | some c => if c != "" && c != remoteKey.comment then some c else none
    | none => none
  ⟨contextUpd, referenceUpd, tagsUpd, commentUpd⟩

/-- Insert-or-overwrite on an association list, modelling one step of JS `Map`
construction: an existing key keeps its position but its value is replaced;
a new key is appended at the end. -/
def upsert {α : Type} (m : List (String × α)) (k : String) (v : α) : List (String × α) :=
  if m.any (fun p => p.1 == k) then
    m.map (fun p => if p.1 == k then (k, v) else p)
  else m ++ [(k, v)]

/-- Model of `new Map(pairs)`: keys are deduplicated, insertion order is the
order of first occurrence, and on duplicate keys the last value wins. -/
def buildMap {α : Type} (ps : List (String × α)) : List (String × α) :=
  ps.foldl (fun m p => upsert m p.1 p.2) []

/-- Model of `Map.get`. -/
def lookupMap {α : Type} (m : List (String × α)) (k : String) : Option α :=
  (m.find? (fun p => p.1 == k)).map (fun p => p.2)

/-- Key list of an association list, in order. -/
def mapKeys {α : Type} (m : List (String × α)) : List String :=
  m.map Prod.fst

/-- Add-candidate built for a local key absent remotely (the object literal
pushed into `addTerms` in `calculateSyncPlan`). -/
def mkAddTerm (k : String) (lk : DetectedKey) : POEditorTerm :=
  ⟨k, extractContext lk, extractReference lk, extractTags lk, generateComment lk⟩

/-- Model of `SyncManager.calculateSyncPlan`.  The single pass of the source
over `localKeyMap` appends to `addTerms`, `updateTerms` and the per-language
`missingTranslations` buckets; each of those lists is therefore the
`filterMap` of the same pass.  `remoteTranslations` is the per-language
translation map; a missing or empty content string is falsy in the source's
`!remoteTranslations[lang]?.[key]` check. -/
def calculateSyncPlan (localKeys : List DetectedKey) (remoteTerms : List RemoteTerm)
    (remoteTranslations : String → String → Option String)
    (deleteExtraneous : Bool) (includeLangs : List String) : SyncPlan :=
  let localKeyMap := buildMap (localKeys.map (fun k => (k.key, k)))
  let remoteKeyMap := buildMap (remoteTerms.map (fun t => (t.term, t)))
  let addTerms := localKeyMap.filterMap (fun p =>
    match lookupMap remoteKeyMap p.1 with
    | none => some (mkAddTerm p.1 p.2)
    | some _ => none)
  let updateTerms := localKeyMap.filterMap (fun p =>
    match lookupMap remoteKeyMap p.1 with
    | none => none
    | some rt =>
      let updates := calculateTermUpdates p.2 rt
      if updates.hasUpdates then some (p.1, updates) else none)
  let missingTranslations := includeLangs.map (fun lang =>
    (lang, localKeyMap.filterMap (fun p =>
      match lookupMap remoteKeyMap p.1 with
      | none => some p.1
      | some _ =>
        if jsTruthyOpt (remoteTranslations lang p.1) then none else some p.1)))
  let deleteTerms :=
    if deleteExtraneous then
      remoteKeyMap.filterMap (fun p =>
        if (lookupMap localKeyMap p.1).isNone then some p.1 else none)
    else []
  let obsoleteTranslations := includeLangs.map (fun lang =>
    (lang,
      if deleteExtraneous then
        remoteKeyMap.filterMap (fun p =>
          if (lookupMap localKeyMap p.1).isNone && jsTruthyOpt (remoteTranslations lang p.1)
          then some p.1 else none)
      else []))
  ⟨addTerms, updateTerms, deleteTerms, missingTranslations, obsoleteTranslations,
    ⟨addTerms.length, updateTerms.length, deleteTerms.length,
      missingTranslations.foldl (fun s p => s + p.2.length) 0⟩⟩

/-- Outcome of one invocation of the wrapped operation inside
`POEditorClient.withRateLimit`: success, a `POEditorApiError` carrying an
optional HTTP status and optional parsed `Retry-After` hint, or any other
thrown error. -/
inductive OpOutcome (α : Type) where
  | ok (v : α)
  | apiError (msg : String) (status : Option Nat) (retryAfterMs : Option Nat)
  | plainError (msg : String)
deriving DecidableEq

/-- Retry classification of `withRateLimit`: only status 429 or 503. -/
def retryableStatus (status : Option Nat) : Bool :=
  status == some 429 || status == some 503

/-- Wait before a retry, from the source line
`Math.max(minDelay, retryAfterMs ?? Math.min(60000, delay * Math.pow(2, attempt))) + jitter`
(`delay` is never reassigned, so it always equals `minDelay`). -/
def retryWaitMs (minDelay : Nat) (retryAfterMs : Option Nat) (attempt : Nat) (jitter : Nat) : Nat :=
  max minDelay
    (match retryAfterMs with
      | some r => r
      | none => min 60000 (minDelay * 2 ^ attempt)) + jitter

/-- Error message surfaced by `withRateLimit` for a `POEditorApiError`:
the status is interpolated only when truthy. -/
def apiErrorText (msg : String) (status : Option Nat) : String :=
  match status with
  | some s =>
    if s = 0 then "POEditor API error: " ++ msg
    else "POEditor API error (status " ++ toString s ++ "): " ++ msg
  | none => "POEditor API error: " ++ msg

/-- Trace of one `withRateLimit` call: the surfaced result, the number of
invocations of the wrapped operation, and the waits performed in order (each
retry backoff, plus the post-success spacing delay of `minDelay`). -/
structure RLRun (α : Type) where
  result : Except String α
  invocations : Nat
  waits : List Nat

/-- Retry loop of `withRateLimit`.  `op a` is the outcome of invocation number
`a` (the source's `attempt` counter); `jitter a` models the sampled
`Math.floor(Math.random() * 5000)` of that iteration; `left` is
`maxRetries - attempt`, so the source's retry condition `attempt < maxRetries`
is `left ≠ 0`. -/
def rlLoop {α : Type} (op : Nat → OpOutcome α) (minDelay : Nat) (jitter : Nat → Nat) :
    Nat → Nat → RLRun α
  | attempt, 0 =>
    match op attempt with
    | OpOutcome.ok v => ⟨Except.ok v, 1, [minDelay]⟩
    | OpOutcome.apiError m s _ => ⟨Except.error (apiErrorText m s), 1, []⟩
    | OpOutcome.plainError m => ⟨Except.error m, 1, []⟩
  | attempt, left + 1 =>
    match op attempt with
    | OpOutcome.ok v => ⟨Except.ok v, 1, [minDelay]⟩
    | OpOutcome.apiError m s h =>
      if retryableStatus s then
        let w := retryWaitMs minDelay h attempt (jitter attempt)
        let rest := rlLoop op minDelay jitter (attempt + 1) left
        ⟨rest.result, rest.invocations + 1, w :: rest.waits⟩
      else ⟨Except.error (apiErrorText m s), 1, []⟩
    | OpOutcome.plainError m => ⟨Except.error m, 1, []⟩

/-- Model of `POEditorClient.withRateLimit` (part_005 version): `maxRetries = 5`,
`attempt` starts at 0. -/
def withRateLimitModel {α : Type} (op : Nat → OpOutcome α) (minDelay : Nat)
    (jitter : Nat → Nat) : RLRun α :=
  rlLoop op minDelay jitter 0 5

/-- Consecutive chunks of at most `batchSize` elements, mirroring the loop
`for (i = 0; i < items.length; i += batchSize) slice(i, i + batchSize)` of
`POEditorClient.batchOperation`.  With `batchSize = 0` the source loop would
not terminate on a non-empty list; the model returns `[]` there and every
theorem about it assumes a positive batch size. -/
def chunkList {α : Type} (batchSize : Nat) (items : List α) : List (List α) :=
  if items.isEmpty || batchSize == 0 then []
  else items.take batchSize :: chunkList batchSize (items.drop batchSize)
termination_by items.length
decreasing_by
  rename_i h
  simp only [Bool.or_eq_true, List.isEmpty_iff, beq_iff_eq, not_or] at h
  have : 0 < items.length := List.length_pos.mpr h.1
  simp only [List.length_drop]
  omega

/-- One remote mutation call issued by `executeSync`, with the project id
argument it was given and the batch payload. -/
inductive RemoteCall where
  | addCall (projectId : String) (batch : List POEditorTerm)
  | updateCall (projectId : String) (batch : List (String × TermUpdates))
  | deleteCall (projectId : String) (batch : List String)
deriving DecidableEq

/-- Project id argument of a remote call. -/
def RemoteCall.projectId : RemoteCall → String
  | RemoteCall.addCall p _ => p
  | RemoteCall.updateCall p _ => p
  | RemoteCall.deleteCall p _ => p

/-- Server response of `POEditorClient.addTerms`. -/
structure AddResp where
  parsed : Nat
  added : Nat
deriving DecidableEq

/-- Server response of `POEditorClient.updateTerms`. -/
structure UpdResp where
  parsed : Nat
  updated : Nat
deriving DecidableEq

/-- Server response of `POEditorClient.deleteTerms`. -/
structure DelResp where
  parsed : Nat
  deleted : Nat
deriving DecidableEq

/-- Deterministic model of the remote service as seen by `executeSync`: for a
given batch, either a server-reported count or a thrown error message (the
message that `withRateLimit` surfaces after its retry policy). -/
structure ClientOracle where
  addTerms : List POEditorTerm → Except String AddResp
  updateTerms : List (String × TermUpdates) → Except String UpdResp
  deleteTerms : List String → Except String DelResp

/-- One entry of `SyncResult.errors`. -/
structure SyncError where
  operation : String
  error : String
deriving DecidableEq

/-- Result of one `executeSync` invocation (`SyncResult`). -/
structure SyncResult where
  created : Nat
  updated : Nat
  deleted : Nat
  mtTriggered : List String
  errors : List SyncError
  rateLimitWaits : Nat
  auditLogId : String
deriving DecidableEq

/-- The project id argument hard-coded at every call site inside
`SyncManager.executeSync`. -/
def projectIdArg : String := "project_id"

/-- Chunk-by-chunk run of `batchOperation` with a fallible per-batch operation:
returns the calls issued (in order, including the failing one) and either all
per-batch results in order or the first error, which aborts the loop exactly
as a rejected promise aborts the source's `for` loop. -/
def runBatches {α R : Type} (op : List α → Except String R) (mk : List α → RemoteCall) :
    List (List α) → List RemoteCall × Except String (List R)
  | [] => ([], Except.ok [])
  | c :: cs =>
    match op c with
    | Except.error m => ([mk c], Except.error m)
    | Except.ok r =>
      let rest := runBatches op mk cs
      (mk c :: rest.1, rest.2.map (fun rs => r :: rs))

/-- Model of `POEditorClient.batchOperation` as invoked by `executeSync`:
the items are cut into chunks and fed one at a time to the remote operation. -/
def batchOperationE {α R : Type} (op : List α → Except String R) (mk : List α → RemoteCall)
    (batchSize : Nat) (items : List α) : List RemoteCall × Except String (List R) :=
  runBatches op mk (chunkList batchSize items)

/-- Additions phase of `executeSync`: run only when `plan.addTerms` is
non-empty. -/
def addPhase (oracle : ClientOracle) (plan : SyncPlan) (batchSize : Nat) :
    List RemoteCall × Except String (List AddResp) :=
  if plan.addTerms.length > 0 then
    batchOperationE oracle.addTerms (RemoteCall.addCall projectIdArg) batchSize plan.addTerms
  else ([], Except.ok [])

/-- Updates phase of `executeSync`. -/
def updPhase (oracle : ClientOracle) (plan : SyncPlan) (batchSize : Nat) :
    List RemoteCall × Except String (List UpdResp) :=
  if plan.updateTerms.length > 0 then
    batchOperationE oracle.updateTerms (RemoteCall.updateCall projectIdArg) batchSize plan.updateTerms
  else ([], Except.ok [])

/-- Deletions phase of `executeSync`. -/
def delPhase (oracle : ClientOracle) (plan : SyncPlan) (batchSize : Nat) :
    List RemoteCall × Except String (List DelResp) :=
  if plan.deleteTerms.length > 0 then
    batchOperationE oracle.deleteTerms (RemoteCall.deleteCall projectIdArg) batchSize plan.deleteTerms
  else ([], Except.ok [])

/-- JS truthiness of the `machineTranslate` option (`boolean | string[]`):
`true` and every array (even the empty one) are truthy. -/
def mtTruthy (mt : Bool ⊕ List String) : Bool :=
  match mt with
  | Sum.inl b => b
  | Sum.inr _ => true

/-- The `langsToTranslate` expression of `executeSync`: the explicit list when
an array was given, otherwise the languages with a non-empty missing list, in
`Object.keys` (insertion) order. -/
def resolveMtLangs (mt : Bool ⊕ List String) (plan : SyncPlan) : List String :=
  match mt with
  | Sum.inr langs => langs
  | Sum.inl _ => (plan.missingTranslations.filter (fun p => p.2.length > 0)).map Prod.fst

/-- Model of `SyncManager.executeSync`.  The first component is the returned
`SyncResult`; the second is the ordered trace of remote calls issued.  The
single `try/catch` of the source is mirrored by the match cascade: the first
failing phase stops everything after it, records one `{operation: "sync"}`
error, and leaves the counts accumulated so far in the result.  `auditLogId`
models the `uuidv4()` value generated for this invocation. -/
def executeSyncModel (oracle : ClientOracle) (plan : SyncPlan) (batchSize : Nat)
    (machineTranslate : Bool ⊕ List String) (dryRun : Bool) (auditLogId : String) :
    SyncResult × List RemoteCall :=
  if dryRun then
    (⟨plan.addTerms.length, plan.updateTerms.length, plan.deleteTerms.length,
      (match machineTranslate with
        | Sum.inr langs => langs
        | Sum.inl _ => []),
      [], 0, auditLogId⟩, [])
  else
    let p1 := addPhase oracle plan batchSize
    match p1.2 with
    | Except.error m => (⟨0, 0, 0, [], [⟨"sync", m⟩], 0, auditLogId⟩, p1.1)
    | Except.ok addRs =>
      let created := addRs.foldl (fun s r => s + r.added) 0
      let p2 := updPhase oracle plan batchSize
      match p2.2 with
      | Except.error m =>
        (⟨created, 0, 0, [], [⟨"sync", m⟩], addRs.length, auditLogId⟩, p1.1 ++ p2.1)
      | Except.ok updRs =>
        let updated := updRs.foldl (fun s r => s + r.updated) 0
        let p3 := delPhase oracle plan batchSize
        match p3.2 with
        | Except.error m =>
          (⟨created, updated, 0, [], [⟨"sync", m⟩], addRs.length + updRs.length, auditLogId⟩,
            p1.1 ++ p2.1 ++ p3.1)
        | Except.ok delRs =>
          let deleted := delRs.foldl (fun s r => s + r.deleted) 0
          let mtTriggered :=
            if mtTruthy machineTranslate && plan.stats.missing > 0 then
              resolveMtLangs machineTranslate plan
            else []
          (⟨created, updated, deleted, mtTriggered, [],
            addRs.length + updRs.length + delRs.length, auditLogId⟩,
            p1.1 ++ p2.1 ++ p3.1)

/-- Modelled from the spec: the per-attempt wait formula the specification
states for the rate-limited executor,
`max(minDelayMs, serverRetryHint, minDelayMs * 2^attempt) + jitter`, with an
absent hint contributing nothing to the maximum.  The source computes a
different value (`retryWaitMs`); this definition exists only to be compared
with it. -/
def claimedRetryWait (minDelay : Nat) (retryAfterMs : Option Nat) (attempt : Nat)
    (jitter : Nat) : Nat :=
  max (max minDelay (retryAfterMs.getD 0)) (minDelay * 2 ^ attempt) + jitter

/-- Model of `POEditorClient.batchOperation` with a pure per-batch operation:
one operation call per loop iteration, results appended in order. -/
def batchOperationModel {α R : Type} (op : List α → R) (batchSize : Nat)
    (items : List α) : List R :=
  if items.isEmpty || batchSize == 0 then []
  else op (items.take batchSize) :: batchOperationModel op batchSize (items.drop batchSize)
termination_by items.length
decreasing_by
  rename_i h
  simp only [Bool.or_eq_true, List.isEmpty_iff, beq_iff_eq, not_or] at h
  have : 0 < items.length := List.length_pos.mpr h.1
  simp only [List.length_drop]
  omega

/-- Concrete local key `a` with no usage sites, used to exercise the theorems
on small inputs. -/
def lkA : DetectedKey := ⟨"a", "a", [], "vue3", "", false, []⟩

/-- Concrete remote term `b` with empty derived fields. -/
def rtB : RemoteTerm := ⟨"b", "", "", "", none, "", "", ""⟩

/-- Translation oracle with no content anywhere. -/
def transNone : String → String → Option String := fun _ _ => none

/-- Concrete local key whose recomputed context is `undefined` (no usage
sites), while the paired remote term below has a non-empty context. -/
def ceLk : DetectedKey := ⟨"k", "k", [], "vue3", "", false, []⟩

/-- Concrete remote term whose context differs from the recomputed one of
`ceLk` (which is `undefined`); its tags equal the recomputed tags. -/
def ceRk : RemoteTerm := ⟨"k", "ctx", "", "", some ["vue3"], "", "", ""⟩

/-- Concrete remote term carrying the tag list `["a", "b"]`. -/
def rkTagsAB : RemoteTerm := ⟨"k", "", "", "", some ["a", "b"], "", "", ""⟩

/-- Concrete add-candidate payload for executing small live syncs. -/
def termT1 : POEditorTerm := ⟨"t1", none, "", some ["vue3"], none⟩

/-- Concrete plan with one addition, one update and one deletion. -/
def planW : SyncPlan :=
  ⟨[termT1], [("k", ⟨some "c", none, none, none⟩)], ["z"], [], [], ⟨1, 1, 1, 0⟩⟩

/-- Oracle whose update endpoint fails while additions and deletions
succeed. -/
def oracleUpdFail : ClientOracle :=
  ⟨fun _ => Except.ok ⟨1, 1⟩, fun _ => Except.error "boom", fun _ => Except.ok ⟨1, 1⟩⟩

/-- Oracle for which every endpoint succeeds, reporting one accepted item. -/
def oracleAllOk : ClientOracle :=
  ⟨fun _ => Except.ok ⟨1, 1⟩, fun _ => Except.ok ⟨1, 1⟩, fun _ => Except.ok ⟨1, 1⟩⟩

/-- Concrete local key whose phrase differs from its identifier, forcing a
comment update against `rtK`. -/
def lkPhrase : DetectedKey := ⟨"k", "Hello", [], "vue3", "", false, []⟩

/-- Concrete remote term matching `lkPhrase` except for the comment. -/
def rtK : RemoteTerm := ⟨"k", "", "", "", some ["vue3"], "", "", ""⟩

/-- Concrete plan containing a single addition and nothing else. -/
def planAddOnly : SyncPlan := ⟨[termT1], [], [], [], [], ⟨1, 0, 0, 0⟩⟩

theorem any_key_iff {α : Type} (m : List (String × α)) (k : String) :
    (m.any (fun p => p.1 == k)) = true ↔ k ∈ mapKeys m := by
  simp [mapKeys, List.any_eq_true, List.mem_map]

theorem mem_keys_upsert {α : Type} (m : List (String × α)) (k : String) (v : α) (x : String) :
    x ∈ mapKeys (upsert m k v) ↔ x ∈ mapKeys m ∨ x = k := by
  unfold upsert
  split
  case isTrue h =>
    have hk : k ∈ mapKeys m := (any_key_iff m k).mp h
    have hkeys : mapKeys (m.map (fun p => if p.1 == k then (k, v) else p)) = mapKeys m := by
      simp only [mapKeys, List.map_map]
      apply List.map_congr_left
      intro p _
      by_cases hc : p.1 = k
      · simp [hc]
      · simp [hc]
    rw [hkeys]
    constructor
    · exact Or.inl
    · rintro (h1 | rfl)
      · exact h1
      · exact hk
  case isFalse _ =>
    simp [mapKeys, List.mem_append]

theorem mem_keys_foldl_upsert {α : Type} (ps : List (String × α)) :
    ∀ (acc : List (String × α)) (x : String),
      x ∈ mapKeys (ps.foldl (fun m p => upsert m p.1 p.2) acc) ↔
        x ∈ mapKeys acc ∨ x ∈ ps.map Prod.fst := by
  induction ps with
  | nil =>
    intro acc x
    simp
  | cons p ps ih =>
    intro acc x
    simp only [List.foldl_cons, List.map_cons, List.mem_cons]
    rw [ih, mem_keys_upsert]
    tauto

theorem mem_keys_buildMap {α : Type} (ps : List (String × α)) (x : String) :
    x ∈ mapKeys (buildMap ps) ↔ x ∈ ps.map Prod.fst := by
  unfold buildMap
  rw [mem_keys_foldl_upsert]
  simp [mapKeys]

theorem lookupMap_eq_none_iff {α : Type} (m : List (String × α)) (k : String) :
    lookupMap m k = none ↔ k ∉ mapKeys m := by
  simp [lookupMap, List.find?_eq_none, mapKeys, List.mem_map]
  constructor
  · intro h x hx
    exact h k x hx rfl
  · intro h a b hab hak
    subst hak
    exact h b hab

theorem lookupMap_isSome_iff {α : Type} (m : List (String × α)) (k : String) :
    (lookupMap m k).isSome = true ↔ k ∈ mapKeys m := by
  rcases h : lookupMap m k with _ | v
  · simpa using (lookupMap_eq_none_iff m k).mp h
  · simp only [Option.isSome_some, true_iff]
    by_contra hk
    rw [(lookupMap_eq_none_iff m k).mpr hk] at h
    exact Option.noConfusion h

theorem keys_local_iff (lks : List DetectedKey) (x : String) :
    x ∈ mapKeys (buildMap (lks.map fun k => (k.key, k))) ↔ x ∈ lks.map DetectedKey.key := by
  rw [mem_keys_buildMap]
  simp

theorem keys_remote_iff (rts : List RemoteTerm) (x : String) :
    x ∈ mapKeys (buildMap (rts.map fun t => (t.term, t))) ↔ x ∈ rts.map RemoteTerm.term := by
  rw [mem_keys_buildMap]
  simp

theorem lookup_local_none_iff (lks : List DetectedKey) (x : String) :
    lookupMap (buildMap (lks.map fun k => (k.key, k))) x = none ↔
      x ∉ lks.map DetectedKey.key := by
  rw [lookupMap_eq_none_iff, keys_local_iff]

theorem lookup_remote_none_iff (rts : List RemoteTerm) (x : String) :
    lookupMap (buildMap (rts.map fun t => (t.term, t))) x = none ↔
      x ∉ rts.map RemoteTerm.term := by
  rw [lookupMap_eq_none_iff, keys_remote_iff]

theorem plan_addTerms_eq (lks : List DetectedKey) (rts : List RemoteTerm)
    (trans : String → String → Option String) (dex : Bool) (langs : List String) :
    (calculateSyncPlan lks rts trans dex langs).addTerms =
      (buildMap (lks.map fun k => (k.key, k))).filterMap (fun p =>
        match lookupMap (buildMap (rts.map fun t => (t.term, t))) p.1 with
        | none => some (mkAddTerm p.1 p.2)
        | some _ => none) := rfl

theorem plan_updateTerms_eq (lks : List DetectedKey) (rts : List RemoteTerm)
    (trans : String → String → Option String) (dex : Bool) (langs : List String) :
    (calculateSyncPlan lks rts trans dex langs).updateTerms =
      (buildMap (lks.map fun k => (k.key, k))).filterMap (fun p =>
        match lookupMap (buildMap (rts.map fun t => (t.term, t))) p.1 with
        | none => none
        | some rt =>
          if (calculateTermUpdates p.2 rt).hasUpdates then some (p.1, calculateTermUpdates p.2 rt)
          else none) := rfl

theorem plan_deleteTerms_eq (lks : List DetectedKey) (rts : List RemoteTerm)
    (trans : String → String → Option String) (dex : Bool) (langs : List String) :
    (calculateSyncPlan lks rts trans dex langs).deleteTerms =
      (if dex then
        (buildMap (rts.map fun t => (t.term, t))).filterMap (fun p =>
          if (lookupMap (buildMap (lks.map fun k => (k.key, k))) p.1).isNone then some p.1
          else none)
      else []) := rfl

theorem plan_missing_eq (lks : List DetectedKey) (rts : List RemoteTerm)
    (trans : String → String → Option String) (dex : Bool) (langs : List String) :
    (calculateSyncPlan lks rts trans dex langs).missingTranslations =
      langs.map (fun lang =>
        (lang, (buildMap (lks.map fun k => (k.key, k))).filterMap (fun p =>
          match lookupMap (buildMap (rts.map fun t => (t.term, t))) p.1 with
          | none => some p.1
          | some _ =>
            if jsTruthyOpt (trans lang p.1) then none else some p.1))) := rfl

theorem plan_stats_missing_eq (lks : List DetectedKey) (rts : List RemoteTerm)
    (trans : String → String → Option String) (dex : Bool) (langs : List String) :
    (calculateSyncPlan lks rts trans dex langs).stats.missing =
      (calculateSyncPlan lks rts trans dex langs).missingTranslations.foldl
        (fun s p => s + p.2.length) 0 := rfl

theorem mem_plan_addTerm_ids (lks : List DetectedKey) (rts : List RemoteTerm)
    (trans : String → String → Option String) (dex : Bool) (langs : List String) (t : String) :
    t ∈ (calculateSyncPlan lks rts trans dex langs).addTerms.map POEditorTerm.term ↔
      (t ∈ lks.map DetectedKey.key ∧ t ∉ rts.map RemoteTerm.term) := by
  rw [plan_addTerms_eq]
  constructor
  · intro ht
    rcases List.mem_map.mp ht with ⟨a, ha, hat⟩
    rcases List.mem_filterMap.mp ha with ⟨p, hp, hgp⟩
    rcases hlk : lookupMap (buildMap (rts.map fun t => (t.term, t))) p.1 with _ | rt
    · rw [hlk] at hgp
      have haeq : a = mkAddTerm p.1 p.2 := (Option.some.inj hgp).symm
      have hpt : p.1 = t := by
        rw [← hat, haeq]
        rfl
      rw [← hpt]
      constructor
      · exact (keys_local_iff lks p.1).mp (List.mem_map.mpr ⟨p, hp, rfl⟩)
      · exact (lookup_remote_none_iff rts p.1).mp hlk
    · rw [hlk] at hgp
      exact absurd hgp (by simp)
  · rintro ⟨hl, hr⟩
    rcases List.mem_map.mp ((keys_local_iff lks t).mpr hl) with ⟨p, hp, hpt⟩
    have hnone : lookupMap (buildMap (rts.map fun t => (t.term, t))) p.1 = none := by
      rw [hpt]
      exact (lookup_remote_none_iff rts t).mpr hr
    refine List.mem_map.mpr ⟨mkAddTerm p.1 p.2, List.mem_filterMap.mpr ⟨p, hp, ?_⟩, hpt⟩
    rw [hnone]

theorem mem_plan_updateTerm_ids (lks : List DetectedKey) (rts : List RemoteTerm)
    (trans : String → String → Option String) (dex : Bool) (langs : List String) (t : String) :
    t ∈ (calculateSyncPlan lks rts trans dex langs).updateTerms.map Prod.fst →
      (t ∈ lks.map DetectedKey.key ∧ t ∈ rts.map RemoteTerm.term) := by
  rw [plan_updateTerms_eq]
  intro ht
  rcases List.mem_map.mp ht with ⟨a, ha, hat⟩
  rcases List.mem_filterMap.mp ha with ⟨p, hp, hgp⟩
  rcases hlk : lookupMap (buildMap (rts.map fun t => (t.term, t))) p.1 with _ | rt
  · rw [hlk] at hgp
    exact absurd hgp (by simp)
  · rw [hlk] at hgp
    dsimp only at hgp
    have hpt : p.1 = t := by
      by_cases hif : (calculateTermUpdates p.2 rt).hasUpdates = true
      · rw [if_pos hif] at hgp
        rw [← hat, ← Option.some.inj hgp]
      · rw [if_neg hif] at hgp
        exact absurd hgp (by simp)
    rw [← hpt]
    constructor
    · exact (keys_local_iff lks p.1).mp (List.mem_map.mpr ⟨p, hp, rfl⟩)
    · have hsome : (lookupMap (buildMap (rts.map fun t => (t.term, t))) p.1).isSome = true := by
        rw [hlk]
        rfl
      exact (keys_remote_iff rts p.1).mp ((lookupMap_isSome_iff _ p.1).mp hsome)

theorem mem_plan_deleteTerms (lks : List DetectedKey) (rts : List RemoteTerm)
    (trans : String → String → Option String) (langs : List String) (t : String) :
    t ∈ (calculateSyncPlan lks rts trans true langs).deleteTerms ↔
      (t ∈ rts.map RemoteTerm.term ∧ t ∉ lks.map DetectedKey.key) := by
  rw [plan_deleteTerms_eq]
  rw [if_pos rfl]
  constructor
  · intro ht
    rcases List.mem_filterMap.mp ht with ⟨p, hp, hgp⟩
    by_cases hif : (lookupMap (buildMap (lks.map fun k => (k.key, k))) p.1).isNone = true
    · rw [if_pos hif] at hgp
      have hpt : p.1 = t := Option.some.inj hgp
      rw [← hpt]
      constructor
      · exact (keys_remote_iff rts p.1).mp (List.mem_map.mpr ⟨p, hp, rfl⟩)
      · intro hl
        have hs := (lookupMap_isSome_iff (buildMap (lks.map fun k => (k.key, k))) p.1).mpr
          ((keys_local_iff lks p.1).mpr hl)
        rw [Option.isNone_iff_eq_none] at hif
        rw [hif] at hs
        exact Bool.noConfusion hs
    · rw [if_neg hif] at hgp
      exact absurd hgp (by simp)
  · rintro ⟨hr, hl⟩
    rcases List.mem_map.mp ((keys_remote_iff rts t).mpr hr) with ⟨p, hp, hpt⟩
    have hnone : (lookupMap (buildMap (lks.map fun k => (k.key, k))) p.1).isNone = true := by
      rw [hpt, Option.isNone_iff_eq_none]
      exact (lookup_local_none_iff lks t).mpr hl
    refine List.mem_filterMap.mpr ⟨p, hp, ?_⟩
    rw [if_pos hnone, hpt]

theorem plan_deleteTerms_nil (lks : List DetectedKey) (rts : List RemoteTerm)
    (trans : String → String → Option String) (langs : List String) :
    (calculateSyncPlan lks rts trans false langs).deleteTerms = [] := by
  rw [plan_deleteTerms_eq]
  simp

theorem plan_obsolete_eq (lks : List DetectedKey) (rts : List RemoteTerm)
    (trans : String → String → Option String) (dex : Bool) (langs : List String) :
    (calculateSyncPlan lks rts trans dex langs).obsoleteTranslations =
      langs.map (fun lang =>
        (lang,
          if dex then
            (buildMap (rts.map fun t => (t.term, t))).filterMap (fun p =>
              if (lookupMap (buildMap (lks.map fun k => (k.key, k))) p.1).isNone
                  && jsTruthyOpt (trans lang p.1)
              then some p.1 else none)
          else [])) := rfl

/-- Claim C1: for every local key list and remote term list, the identifiers
of `addTerms` are exactly the local identifiers absent from the remote
identifier set; when `deleteExtraneous` is true, `deleteTerms` is exactly the
set of remote identifiers absent from the local set; and when the two
identifier sets are equal, both lists are empty.  (Proved without the
disjointness hypothesis, which is a special case.) -/
theorem claim_C1 (lks : List DetectedKey) (rts : List RemoteTerm)
    (trans : String → String → Option String) (dex : Bool) (langs : List String) :
    (∀ t, t ∈ (calculateSyncPlan lks rts trans dex langs).addTerms.map POEditorTerm.term ↔
      (t ∈ lks.map DetectedKey.key ∧ t ∉ rts.map RemoteTerm.term))
    ∧ (dex = true → ∀ t, t ∈ (calculateSyncPlan lks rts trans dex langs).deleteTerms ↔
      (t ∈ rts.map RemoteTerm.term ∧ t ∉ lks.map DetectedKey.key))
    ∧ ((∀ t, t ∈ lks.map DetectedKey.key ↔ t ∈ rts.map RemoteTerm.term) →
      (calculateSyncPlan lks rts trans dex langs).addTerms = []
      ∧ (calculateSyncPlan lks rts trans dex langs).deleteTerms = []) := by
  refine ⟨mem_plan_addTerm_ids lks rts trans dex langs, ?_, ?_⟩
  · rintro rfl t
    exact mem_plan_deleteTerms lks rts trans langs t
  · intro heq
    constructor
    · rw [List.eq_nil_iff_forall_not_mem]
      intro a ha
      have hmem : a.term ∈ (calculateSyncPlan lks rts trans dex langs).addTerms.map
          POEditorTerm.term := List.mem_map.mpr ⟨a, ha, rfl⟩
      have h2 := (mem_plan_addTerm_ids lks rts trans dex langs a.term).mp hmem
      exact h2.2 ((heq a.term).mp h2.1)
    · cases dex with
      | false => exact plan_deleteTerms_nil lks rts trans langs
      | true =>
        rw [List.eq_nil_iff_forall_not_mem]
        intro t ht
        have h2 := (mem_plan_deleteTerms lks rts trans langs t).mp ht
        exact h2.2 ((heq t).mpr h2.1)

/-- Witness for C1 at local keys `{a}`, remote terms `{b}`,
`deleteExtraneous = true`: `a` is added and `b` is deleted. -/
theorem claim_C1_witness :
    "a" ∈ (calculateSyncPlan [lkA] [rtB] transNone true ["de"]).addTerms.map POEditorTerm.term
    ∧ "b" ∈ (calculateSyncPlan [lkA] [rtB] transNone true ["de"]).deleteTerms := by
  have h := claim_C1 [lkA] [rtB] transNone true ["de"]
  exact ⟨(h.1 "a").mpr ⟨by decide, by decide⟩, ((h.2.1 rfl) "b").mpr ⟨by decide, by decide⟩⟩

/-- Claim C2: in every plan, an identifier belongs to at most one of
`addTerms`, the keys of `updateTerms`, and `deleteTerms`; and `deleteTerms`
is empty whenever `deleteExtraneous` is false. -/
theorem claim_C2 (lks : List DetectedKey) (rts : List RemoteTerm)
    (trans : String → String → Option String) (dex : Bool) (langs : List String) :
    (∀ t, t ∈ (calculateSyncPlan lks rts trans dex langs).addTerms.map POEditorTerm.term →
      t ∉ (calculateSyncPlan lks rts trans dex langs).updateTerms.map Prod.fst
      ∧ t ∉ (calculateSyncPlan lks rts trans dex langs).deleteTerms)
    ∧ (∀ t, t ∈ (calculateSyncPlan lks rts trans dex langs).updateTerms.map Prod.fst →
      t ∉ (calculateSyncPlan lks rts trans dex langs).deleteTerms)
    ∧ (dex = false → (calculateSyncPlan lks rts trans dex langs).deleteTerms = []) := by
  refine ⟨?_, ?_, ?_⟩
  · intro t ht
    have hadd := (mem_plan_addTerm_ids lks rts trans dex langs t).mp ht
    constructor
    · intro hu
      exact hadd.2 (mem_plan_updateTerm_ids lks rts trans dex langs t hu).2
    · intro hd
      cases dex with
      | false =>
        rw [plan_deleteTerms_nil lks rts trans langs] at hd
        exact absurd hd (List.not_mem_nil t)
      | true => exact ((mem_plan_deleteTerms lks rts trans langs t).mp hd).2 hadd.1
  · intro t hu hd
    cases dex with
    | false =>
      rw [plan_deleteTerms_nil lks rts trans langs] at hd
      exact absurd hd (List.not_mem_nil t)
    | true =>
      exact ((mem_plan_deleteTerms lks rts trans langs t).mp hd).2
        (mem_plan_updateTerm_ids lks rts trans true langs t hu).1
  · rintro rfl
    exact plan_deleteTerms_nil lks rts trans langs

/-- Witness for C2: in the plan for local `{a}` versus remote `{b}` with
deletion requested, the added identifier `a` is in neither of the other two
buckets. -/
theorem claim_C2_witness :
    "a" ∉ (calculateSyncPlan [lkA] [rtB] transNone true ["de"]).updateTerms.map Prod.fst
    ∧ "a" ∉ (calculateSyncPlan [lkA] [rtB] transNone true ["de"]).deleteTerms :=
  (claim_C2 [lkA] [rtB] transNone true ["de"]).1 "a" (by decide)

/-- Claim C7: `stats.missing` always equals the summed lengths of the
`missingTranslations` buckets, and an empty `includeLangs` list forces a plan
with no missing or obsolete language buckets and `stats.missing = 0`,
whatever the local and remote content. -/
theorem claim_C7 (lks : List DetectedKey) (rts : List RemoteTerm)
    (trans : String → String → Option String) (dex : Bool) (langs : List String) :
    (calculateSyncPlan lks rts trans dex langs).stats.missing =
      ((calculateSyncPlan lks rts trans dex langs).missingTranslations.map
        (fun p => p.2.length)).sum
    ∧ (langs = [] →
      (calculateSyncPlan lks rts trans dex langs).missingTranslations = []
      ∧ (calculateSyncPlan lks rts trans dex langs).obsoleteTranslations = []
      ∧ (calculateSyncPlan lks rts trans dex langs).stats.missing = 0) := by
  have hfold : ∀ (l : List (String × List String)) (n : Nat),
      l.foldl (fun s p => s + p.2.length) n = n + (l.map (fun p => p.2.length)).sum := by
    intro l
    induction l with
    | nil =>
      intro n
      simp
    | cons p l ih =>
      intro n
      simp [ih, Nat.add_assoc]
  refine ⟨?_, ?_⟩
  · rw [plan_stats_missing_eq, hfold]
    simp
  · rintro rfl
    refine ⟨?_, ?_, ?_⟩
    · rw [plan_missing_eq]
      simp
    · rw [plan_obsolete_eq]
      simp
    · rw [plan_stats_missing_eq, plan_missing_eq]
      simp

/-- Witness for C7 with `includeLangs = []` on non-empty local and remote
content: no buckets and zero missing count. -/
theorem claim_C7_witness :
    (calculateSyncPlan [lkA] [rtB] transNone true []).missingTranslations = []
    ∧ (calculateSyncPlan [lkA] [rtB] transNone true []).stats.missing = 0 := by
  have h := (claim_C7 [lkA] [rtB] transNone true []).2 rfl
  exact ⟨h.1, h.2.2⟩

theorem sortTags_perm_invariant (l l' : List String) (h : l.Perm l') :
    sortTags l = sortTags l' := by
  unfold sortTags
  exact List.eq_of_perm_of_sorted
    ((List.perm_insertionSort _ l).trans (h.trans (List.perm_insertionSort _ l').symm))
    (List.sorted_insertionSort _ l)
    (List.sorted_insertionSort _ l')

/-- Claim C8: the tag comparison of the diff engine is invariant under
reordering of the remote term's tags: replacing the remote tag list by any
permutation of it leaves the whole update record unchanged, so in particular
a pair that produced no update record still produces none. -/
theorem claim_C8 (lk : DetectedKey) (rk : RemoteTerm) (ts ts' : List String)
    (hts : rk.tags = some ts) (hperm : ts'.Perm ts) :
    calculateTermUpdates lk { rk with tags := some ts' } = calculateTermUpdates lk rk := by
  have hsort : sortTags ts' = sortTags ts := sortTags_perm_invariant _ _ hperm
  unfold calculateTermUpdates
  simp [hts, hsort]

/-- Witness for C8: permuting the remote tags `["a", "b"]` to `["b", "a"]`
yields the same update record. -/
theorem claim_C8_witness :
    calculateTermUpdates ceLk { rkTagsAB with tags := some ["b", "a"] } =
      calculateTermUpdates ceLk rkTagsAB :=
  claim_C8 ceLk rkTagsAB ["a", "b"] ["b", "a"] rfl (by decide)

/-- Claim C5 counterexample: for the local key `ceLk` (no usage sites, so the
recomputed context is `undefined`) and the remote term `ceRk` (context
`"ctx"`), the recomputed context differs from the remote context under direct
inequality, yet the update record contains no context field at all — the
record is not "exactly the fields that changed". -/
theorem claim_C5_counterexample :
    extractContext ceLk ≠ some ceRk.context
    ∧ (calculateTermUpdates ceLk ceRk).context = none
    ∧ calculateTermUpdates ceLk ceRk = ⟨none, none, none, none⟩ := by
  decide

/-- Claim C5 (amended): an update-record field is present exactly when the
recomputed value is truthy (defined and non-empty) AND differs from the remote
value — direct string inequality for context, reference and comment, sorted
order-independent comparison for tags, where the stored tags value is the
sorted recomputed list (the source's in-place `Array.sort`) — and a key
produces an update entry in the plan only when at least one field is
present. -/
theorem claim_C5 (lk : DetectedKey) (rk : RemoteTerm) :
    (∀ c, (calculateTermUpdates lk rk).context = some c ↔
      (extractContext lk = some c ∧ c ≠ "" ∧ c ≠ rk.context))
    ∧ (∀ r, (calculateTermUpdates lk rk).reference = some r ↔
      (extractReference lk = r ∧ r ≠ "" ∧ r ≠ rk.reference))
    ∧ (∀ ts, (calculateTermUpdates lk rk).tags = some ts ↔
      ((extractTags lk).map sortTags = some ts ∧ rk.tags.map sortTags ≠ some ts))
    ∧ (∀ c, (calculateTermUpdates lk rk).comment = some c ↔
      (generateComment lk = some c ∧ c ≠ "" ∧ c ≠ rk.comment))
    ∧ (∀ (lks : List DetectedKey) (rts : List RemoteTerm)
        (trans : String → String → Option String) (dex : Bool) (langs : List String)
        (k : String) (u : TermUpdates),
        (k, u) ∈ (calculateSyncPlan lks rts trans dex langs).updateTerms →
          u.hasUpdates = true) := by
  refine ⟨?_, ?_, ?_, ?_, ?_⟩
  · intro c
    rcases hc : extractContext lk with _ | c0
    · simp [calculateTermUpdates, hc]
    · by_cases hcond : c0 ≠ "" ∧ c0 ≠ rk.context
      · simp [calculateTermUpdates, hc, hcond.1, hcond.2, bne_iff_ne]
        intro he
        subst he
        exact ⟨hcond.1, hcond.2⟩
      · push_neg at hcond
        simp only [calculateTermUpdates, hc]
        by_cases h0 : c0 = ""
        · simp [h0]
          intro he
          rw [← he]
          simp
        · have h2 : c0 = rk.context := hcond h0
          simp [h0, h2, bne_iff_ne]
          intro he
          rw [← he]
          tauto
  · intro r
    by_cases hcond : extractReference lk ≠ "" ∧ extractReference lk ≠ rk.reference
    · simp [calculateTermUpdates, bne_iff_ne, hcond.1, hcond.2]
      intro he
      rw [← he]
      exact ⟨hcond.1, hcond.2⟩
    · push_neg at hcond
      by_cases h0 : extractReference lk = ""
      · simp [calculateTermUpdates, h0]
        intro he
        rw [← he]
        simp
      · have h2 : extractReference lk = rk.reference := hcond h0
        simp [calculateTermUpdates, bne_iff_ne, h0, h2]
        intro he
        rw [← he]
        tauto
  · intro ts
    rcases hts : extractTags lk with _ | ts0
    · simp [calculateTermUpdates, hts]
    · simp only [calculateTermUpdates, hts, Option.map_some']
      by_cases hcond : rk.tags.map sortTags ≠ some (sortTags ts0)
      · rw [if_pos hcond]
        constructor
        · intro he
          have hst : sortTags ts0 = ts := Option.some.inj he
          subst hst
          exact ⟨rfl, hcond⟩
        · rintro ⟨hes, _⟩
          exact hes
      · rw [if_neg hcond]
        constructor
        · intro he
          exact absurd he (by simp)
        · rintro ⟨hes, hne⟩
          have hst : sortTags ts0 = ts := Option.some.inj hes
          subst hst
          exact absurd hne hcond
  · intro c
    rcases hc : generateComment lk with _ | c0
    · simp [calculateTermUpdates, hc]
    · by_cases hcond : c0 ≠ "" ∧ c0 ≠ rk.comment
      · simp [calculateTermUpdates, hc, hcond.1, hcond.2, bne_iff_ne]
        intro he
        subst he
        exact ⟨hcond.1, hcond.2⟩
      · push_neg at hcond
        simp only [calculateTermUpdates, hc]
        by_cases h0 : c0 = ""
        · simp [h0]
          intro he
          rw [← he]
          simp
        · have h2 : c0 = rk.comment := hcond h0
          simp [h0, h2, bne_iff_ne]
          intro he
          rw [← he]
          tauto
  · intro lks rts trans dex langs k u h
    rw [plan_updateTerms_eq] at h
    rcases List.mem_filterMap.mp h with ⟨p, hp, hgp⟩
    rcases hlk : lookupMap (buildMap (rts.map fun t => (t.term, t))) p.1 with _ | rt
    · rw [hlk] at hgp
      exact absurd hgp (by simp)
    · rw [hlk] at hgp
      dsimp only at hgp
      by_cases hif : (calculateTermUpdates p.2 rt).hasUpdates = true
      · rw [if_pos hif] at hgp
        have hpair := Option.some.inj hgp
        have hu : u = calculateTermUpdates p.2 rt := (Prod.mk.injEq _ _ _ _ ▸ hpair).2.symm
        rw [hu]
        exact hif
      · rw [if_neg hif] at hgp
        exact absurd hgp (by simp)

/-- Witness for C5 (amended): the plan for `lkPhrase` versus `rtK` emits one
update record, and that record is non-empty. -/
theorem claim_C5_witness :
    (⟨none, none, none, some "Phrase: \"Hello\""⟩ : TermUpdates).hasUpdates = true :=
  (claim_C5 lkPhrase rtK).2.2.2.2 [lkPhrase] [rtK] transNone false [] "k"
    ⟨none, none, none, some "Phrase: \"Hello\""⟩ (by decide)

theorem chunkList_nil {α : Type} (B : Nat) : chunkList B ([] : List α) = [] := by
  simp [chunkList]

theorem chunkList_cons_step {α : Type} (B : Nat) (hB : B ≠ 0) (items : List α)
    (h : items ≠ []) :
    chunkList B items = items.take B :: chunkList B (items.drop B) := by
  rw [chunkList.eq_def]
  have hc : (items.isEmpty || B == 0) = false := by
    simp [h, hB]
  rw [hc]
  simp

theorem batchOperationModel_nil {α R : Type} (op : List α → R) (B : Nat) :
    batchOperationModel op B ([] : List α) = [] := by
  simp [batchOperationModel]

theorem batchOperationModel_cons_step {α R : Type} (op : List α → R) (B : Nat) (hB : B ≠ 0)
    (items : List α) (h : items ≠ []) :
    batchOperationModel op B items =
      op (items.take B) :: batchOperationModel op B (items.drop B) := by
  rw [batchOperationModel.eq_def]
  have hc : (items.isEmpty || B == 0) = false := by
    simp [h, hB]
  rw [hc]
  simp

theorem ceilDiv_step (L B : Nat) (hB : 0 < B) (hL : 0 < L) :
    (L - B + B - 1) / B + 1 = (L + B - 1) / B := by
  rcases le_or_lt L B with h | h
  · have h1 : L - B + B - 1 = B - 1 := by omega
    have h2 : (B - 1) / B = 0 := Nat.div_eq_of_lt (by omega)
    have hr : (L + B - 1) / B = 1 := Nat.div_eq_of_lt_le (by omega) (by omega)
    rw [h1, h2, hr]
  · have h1 : L - B + B - 1 = L - 1 := by omega
    have h2 : L + B - 1 = (L - 1) + B := by omega
    rw [h1, h2, Nat.add_div_right _ hB]

theorem chunkList_join_aux {α : Type} (B : Nat) (hB : 0 < B) :
    ∀ (n : Nat) (items : List α), items.length ≤ n → (chunkList B items).flatten = items := by
  intro n
  induction n with
  | zero =>
    intro items h
    have hnil : items = [] := List.eq_nil_of_length_eq_zero (Nat.le_zero.mp h)
    subst hnil
    rw [chunkList_nil]
    rfl
  | succ n ih =>
    intro items h
    rcases eq_or_ne items [] with rfl | hne
    · rw [chunkList_nil]
      rfl
    · rw [chunkList_cons_step B (Nat.pos_iff_ne_zero.mp hB) items hne]
      have hlen : (items.drop B).length ≤ n := by
        have hpos : 0 < items.length := List.length_pos.mpr hne
        simp only [List.length_drop]
        omega
      simp only [List.flatten_cons]
      rw [ih (items.drop B) hlen]
      exact List.take_append_drop B items

theorem chunkList_length_aux {α : Type} (B : Nat) (hB : 0 < B) :
    ∀ (n : Nat) (items : List α), items.length ≤ n →
      (chunkList B items).length = (items.length + B - 1) / B := by
  intro n
  induction n with
  | zero =>
    intro items h
    have hnil : items = [] := List.eq_nil_of_length_eq_zero (Nat.le_zero.mp h)
    subst hnil
    rw [chunkList_nil]
    simp [Nat.div_eq_of_lt (show B - 1 < B by omega)]
  | succ n ih =>
    intro items h
    rcases eq_or_ne items [] with rfl | hne
    · rw [chunkList_nil]
      simp [Nat.div_eq_of_lt (show B - 1 < B by omega)]
    · rw [chunkList_cons_step B (Nat.pos_iff_ne_zero.mp hB) items hne]
      have hpos : 0 < items.length := List.length_pos.mpr hne
      have hlen : (items.drop B).length ≤ n := by
        simp only [List.length_drop]
        omega
      simp only [List.length_cons]
      rw [ih (items.drop B) hlen]
      simp only [List.length_drop]
      exact ceilDiv_step items.length B hB hpos

theorem chunkList_mem_aux {α : Type} (B : Nat) (hB : 0 < B) :
    ∀ (n : Nat) (items : List α), items.length ≤ n →
      ∀ c ∈ chunkList B items, c.length ≤ B ∧ c ≠ [] := by
  intro n
  induction n with
  | zero =>
    intro items h c hc
    have hnil : items = [] := List.eq_nil_of_length_eq_zero (Nat.le_zero.mp h)
    subst hnil
    rw [chunkList_nil] at hc
    exact absurd hc (List.not_mem_nil c)
  | succ n ih =>
    intro items h c hc
    rcases eq_or_ne items [] with rfl | hne
    · rw [chunkList_nil] at hc
      exact absurd hc (List.not_mem_nil c)
    · rw [chunkList_cons_step B (Nat.pos_iff_ne_zero.mp hB) items hne] at hc
      rcases List.mem_cons.mp hc with rfl | hc2
      · constructor
        · rw [List.length_take]
          exact Nat.min_le_left B items.length
        · rw [Ne, List.take_eq_nil_iff]
          push_neg
          exact ⟨Nat.pos_iff_ne_zero.mp hB, hne⟩
      · have hpos : 0 < items.length := List.length_pos.mpr hne
        have hlen : (items.drop B).length ≤ n := by
          simp only [List.length_drop]
          omega
        exact ih (items.drop B) hlen c hc2

theorem batchOperationModel_eq_map_aux {α R : Type} (op : List α → R) (B : Nat) (hB : 0 < B) :
    ∀ (n : Nat) (items : List α), items.length ≤ n →
      batchOperationModel op B items = (chunkList B items).map op := by
  intro n
  induction n with
  | zero =>
    intro items h
    have hnil : items = [] := List.eq_nil_of_length_eq_zero (Nat.le_zero.mp h)
    subst hnil
    rw [chunkList_nil, batchOperationModel_nil]
    rfl
  | succ n ih =>
    intro items h
    rcases eq_or_ne items [] with rfl | hne
    · rw [chunkList_nil, batchOperationModel_nil]
      rfl
    · rw [chunkList_cons_step B (Nat.pos_iff_ne_zero.mp hB) items hne,
        batchOperationModel_cons_step op B (Nat.pos_iff_ne_zero.mp hB) items hne]
      have hpos : 0 < items.length := List.length_pos.mpr hne
      have hlen : (items.drop B).length ≤ n := by
        simp only [List.length_drop]
        omega
      rw [List.map_cons, ih (items.drop B) hlen]

/-- Claim C6: for every item list and positive batch size, the batch
orchestrator invokes the per-batch operation once per chunk — exactly
`ceil(N / B)` times — on consecutive chunks of at most `B` items taken in
order (their concatenation is the input), appending each chunk's result in
the same order; on an empty list it makes no calls and returns `[]`. -/
theorem claim_C6 {α R : Type} (op : List α → R) (B : Nat) (items : List α) (hB : 0 < B) :
    batchOperationModel op B items = (chunkList B items).map op
    ∧ (batchOperationModel op B items).length = (items.length + B - 1) / B
    ∧ (chunkList B items).flatten = items
    ∧ (∀ c ∈ chunkList B items, c.length ≤ B ∧ c ≠ [])
    ∧ (items = [] → batchOperationModel op B items = []) := by
  have hmap := batchOperationModel_eq_map_aux op B hB items.length items (Nat.le_refl _)
  refine ⟨hmap, ?_, ?_, ?_, ?_⟩
  · rw [hmap, List.length_map]
    exact chunkList_length_aux B hB items.length items (Nat.le_refl _)
  · exact chunkList_join_aux B hB items.length items (Nat.le_refl _)
  · exact chunkList_mem_aux B hB items.length items (Nat.le_refl _)
  · rintro rfl
    rw [batchOperationModel_nil]

/-- Witness for C6 at five items and batch size two: three calls, results in
chunk order. -/
theorem claim_C6_witness :
    batchOperationModel (fun c : List Nat => c.length) 2 [1, 2, 3, 4, 5] =
      (chunkList 2 [1, 2, 3, 4, 5]).map (fun c => c.length)
    ∧ (batchOperationModel (fun c : List Nat => c.length) 2 [1, 2, 3, 4, 5]).length =
      (5 + 2 - 1) / 2 := by
  have h := claim_C6 (fun c : List Nat => c.length) 2 [1, 2, 3, 4, 5] (by decide)
  exact ⟨h.1, h.2.1⟩

theorem rlLoop_ok_step {α : Type} (op : Nat → OpOutcome α) (d : Nat) (j : Nat → Nat)
    (attempt left : Nat) (v : α) (hop : op attempt = OpOutcome.ok v) :
    rlLoop op d j attempt left = ⟨Except.ok v, 1, [d]⟩ := by
  cases left <;> simp [rlLoop, hop]

theorem rlLoop_plain_step {α : Type} (op : Nat → OpOutcome α) (d : Nat) (j : Nat → Nat)
    (attempt left : Nat) (m : String) (hop : op attempt = OpOutcome.plainError m) :
    rlLoop op d j attempt left = ⟨Except.error m, 1, []⟩ := by
  cases left <;> simp [rlLoop, hop]

theorem rlLoop_fail_step {α : Type} (op : Nat → OpOutcome α) (d : Nat) (j : Nat → Nat)
    (attempt left : Nat) (m : String) (s : Option Nat) (h : Option Nat)
    (hop : op attempt = OpOutcome.apiError m s h) (hr : retryableStatus s = false) :
    rlLoop op d j attempt left = ⟨Except.error (apiErrorText m s), 1, []⟩ := by
  cases left <;> simp [rlLoop, hop, hr]

theorem rlLoop_exhausted_step {α : Type} (op : Nat → OpOutcome α) (d : Nat) (j : Nat → Nat)
    (attempt : Nat) (m : String) (s : Option Nat) (h : Option Nat)
    (hop : op attempt = OpOutcome.apiError m s h) :
    rlLoop op d j attempt 0 = ⟨Except.error (apiErrorText m s), 1, []⟩ := by
  simp [rlLoop, hop]

theorem rlLoop_retry_step {α : Type} (op : Nat → OpOutcome α) (d : Nat) (j : Nat → Nat)
    (attempt left : Nat) (m : String) (s : Option Nat) (h : Option Nat)
    (hop : op attempt = OpOutcome.apiError m s h) (hr : retryableStatus s = true) :
    rlLoop op d j attempt (left + 1) =
      ⟨(rlLoop op d j (attempt + 1) left).result,
        (rlLoop op d j (attempt + 1) left).invocations + 1,
        retryWaitMs d h attempt (j attempt) :: (rlLoop op d j (attempt + 1) left).waits⟩ := by
  simp [rlLoop, hop, hr]

theorem rlLoop_invocations_le {α : Type} (op : Nat → OpOutcome α) (d : Nat) (j : Nat → Nat) :
    ∀ (left attempt : Nat), (rlLoop op d j attempt left).invocations ≤ left + 1 := by
  intro left
  induction left with
  | zero =>
    intro attempt
    cases hop : op attempt with
    | ok v => rw [rlLoop_ok_step op d j attempt 0 v hop]
    | apiError m s h => rw [rlLoop_exhausted_step op d j attempt m s h hop]
    | plainError m => rw [rlLoop_plain_step op d j attempt 0 m hop]
  | succ left ih =>
    intro attempt
    cases hop : op attempt with
    | ok v =>
      rw [rlLoop_ok_step op d j attempt (left + 1) v hop]
      dsimp only
      omega
    | apiError m s h =>
      by_cases hr : retryableStatus s = true
      · rw [rlLoop_retry_step op d j attempt left m s h hop hr]
        have := ih (attempt + 1)
        simp only []
        omega
      · rw [rlLoop_fail_step op d j attempt (left + 1) m s h hop (by simpa using hr)]
        dsimp only
        omega
    | plainError m =>
      rw [rlLoop_plain_step op d j attempt (left + 1) m hop]
      dsimp only
      omega

theorem rlLoop_retry_info {α : Type} (op : Nat → OpOutcome α) (d : Nat) (j : Nat → Nat) :
    ∀ (left attempt a : Nat), a + 1 < (rlLoop op d j attempt left).invocations →
      ∃ m s h, op (attempt + a) = OpOutcome.apiError m s h ∧ retryableStatus s = true
        ∧ (rlLoop op d j attempt left).waits[a]? =
          some (retryWaitMs d h (attempt + a) (j (attempt + a))) := by
  intro left
  induction left with
  | zero =>
    intro attempt a ha
    cases hop : op attempt with
    | ok v =>
      rw [rlLoop_ok_step op d j attempt 0 v hop] at ha
      dsimp only at ha
      omega
    | apiError m s h =>
      rw [rlLoop_exhausted_step op d j attempt m s h hop] at ha
      dsimp only at ha
      omega
    | plainError m =>
      rw [rlLoop_plain_step op d j attempt 0 m hop] at ha
      dsimp only at ha
      omega
  | succ left ih =>
    intro attempt a ha
    cases hop : op attempt with
    | ok v =>
      rw [rlLoop_ok_step op d j attempt (left + 1) v hop] at ha
      dsimp only at ha
      omega
    | apiError m s h =>
      by_cases hr : retryableStatus s = true
      · rw [rlLoop_retry_step op d j attempt left m s h hop hr] at ha ⊢
        cases a with
        | zero =>
          refine ⟨m, s, h, ?_, hr, ?_⟩
          · rw [Nat.add_zero]
            exact hop
          · simp
        | succ a' =>
          simp only [] at ha
          have ha' : a' + 1 < (rlLoop op d j (attempt + 1) left).invocations := by omega
          obtain ⟨m', s', h', h1, h2, h3⟩ := ih (attempt + 1) a' ha'
          refine ⟨m', s', h', ?_, h2, ?_⟩
          · rw [show attempt + (a' + 1) = attempt + 1 + a' by omega]
            exact h1
          · simp only [List.getElem?_cons_succ]
            rw [show attempt + (a' + 1) = attempt + 1 + a' by omega]
            exact h3
      · rw [rlLoop_fail_step op d j attempt (left + 1) m s h hop (by simpa using hr)] at ha
        dsimp only at ha
        omega
    | plainError m =>
      rw [rlLoop_plain_step op d j attempt (left + 1) m hop] at ha
      dsimp only at ha
      omega

theorem rlLoop_all429 {α : Type} (op : Nat → OpOutcome α) (d : Nat) (j : Nat → Nat)
    (m : String) (h : Option Nat) (hop : ∀ a, op a = OpOutcome.apiError m (some 429) h) :
    ∀ (left attempt : Nat), (rlLoop op d j attempt left).invocations = left + 1
      ∧ (rlLoop op d j attempt left).result = Except.error (apiErrorText m (some 429)) := by
  intro left
  induction left with
  | zero =>
    intro attempt
    rw [rlLoop_exhausted_step op d j attempt m (some 429) h (hop attempt)]
    exact ⟨rfl, rfl⟩
  | succ left ih =>
    intro attempt
    rw [rlLoop_retry_step op d j attempt left m (some 429) h (hop attempt) rfl]
    obtain ⟨h1, h2⟩ := ih (attempt + 1)
    exact ⟨by simp [h1], h2⟩

/-- Claim C3 counterexample: with every invocation failing as a 429 carrying
no server hint, `minDelayMs = 20000` and zero jitter, the executor makes 6
operation invocations (1 initial + 5 retries), not "at most 5 attempts", and
the wait before retry number 2 is `max(20000, min(60000, 20000·2^2)) = 60000`
while the claimed formula `max(minDelayMs, hint, minDelayMs·2^attempt)` gives
80000: the source caps the exponential term at 60000 and, when a hint is
present, ignores the exponential term entirely. -/
theorem claim_C3_counterexample :
    (withRateLimitModel
      (fun _ => OpOutcome.apiError "Rate limit exceeded. Retrying with backoff." (some 429) none)
      20000 (fun _ => 0) : RLRun Nat).invocations = 6
    ∧ ((withRateLimitModel
      (fun _ => OpOutcome.apiError "Rate limit exceeded. Retrying with backoff." (some 429) none)
      20000 (fun _ => 0) : RLRun Nat).waits[2]? = some 60000)
    ∧ claimedRetryWait 20000 none 2 0 = 80000
    ∧ (60000 : Nat) ≠ 80000 := by
  decide

/-- Claim C3 (amended): the executor retries only on outcomes classified as
429 or 503; it makes at most 6 invocations (one initial attempt plus at most
5 retries); the wait before the retry that follows failed invocation number
`a` is `max(minDelayMs, hint)` when a server hint is present and
`max(minDelayMs, min(60000, minDelayMs·2^a))` otherwise, plus that
iteration's jitter (drawn from [0, 5000) in the source); six consecutive
throttling responses surface a single descriptive error carrying the status;
a first-invocation success or non-retryable failure ends the loop at once. -/
theorem claim_C3 {α : Type} (op : Nat → OpOutcome α) (minDelay : Nat) (jitter : Nat → Nat) :
    (withRateLimitModel op minDelay jitter).invocations ≤ 6
    ∧ (∀ a, a + 1 < (withRateLimitModel op minDelay jitter).invocations →
        ∃ m s h, op a = OpOutcome.apiError m s h ∧ retryableStatus s = true
          ∧ (withRateLimitModel op minDelay jitter).waits[a]? =
            some (retryWaitMs minDelay h a (jitter a)))
    ∧ (∀ m h, (∀ a, op a = OpOutcome.apiError m (some 429) h) →
        (withRateLimitModel op minDelay jitter).invocations = 6
        ∧ (withRateLimitModel op minDelay jitter).result =
          Except.error ("POEditor API error (status 429): " ++ m))
    ∧ (∀ v, op 0 = OpOutcome.ok v →
        (withRateLimitModel op minDelay jitter).invocations = 1
        ∧ (withRateLimitModel op minDelay jitter).result = Except.ok v)
    ∧ (∀ m s h, op 0 = OpOutcome.apiError m s h → retryableStatus s = false →
        (withRateLimitModel op minDelay jitter).invocations = 1
        ∧ (withRateLimitModel op minDelay jitter).result =
          Except.error (apiErrorText m s)) := by
  refine ⟨?_, ?_, ?_, ?_, ?_⟩
  · exact rlLoop_invocations_le op minDelay jitter 5 0
  · intro a ha
    have h := rlLoop_retry_info op minDelay jitter 5 0 a ha
    simpa using h
  · intro m h hop
    obtain ⟨h1, h2⟩ := rlLoop_all429 op minDelay jitter m h hop 5 0
    refine ⟨h1, ?_⟩
    rw [withRateLimitModel, h2]
    have htext : apiErrorText m (some 429) = "POEditor API error (status 429): " ++ m := by
      have hpre : ("POEditor API error (status " ++ toString (429 : Nat) ++ "): " : String) =
          "POEditor API error (status 429): " := by decide
      simp [apiErrorText, hpre]
    rw [htext]
  · intro v hv
    rw [withRateLimitModel, rlLoop_ok_step op minDelay jitter 0 5 v hv]
    exact ⟨rfl, rfl⟩
  · intro m s h hop hr
    rw [withRateLimitModel, rlLoop_fail_step op minDelay jitter 0 5 m s h hop hr]
    exact ⟨rfl, rfl⟩

/-- Witness for C3 (amended): a first-invocation success returns after one
invocation with the operation's value, and the all-429 oracle from the
counterexample exhausts in 6 invocations. -/
theorem claim_C3_witness :
    (withRateLimitModel (fun _ => OpOutcome.ok (42 : Nat)) 20000 (fun _ => 0)).invocations = 1
    ∧ (withRateLimitModel (fun _ => OpOutcome.ok (42 : Nat)) 20000 (fun _ => 0)).result =
      Except.ok 42
    ∧ (withRateLimitModel
        (fun _ => OpOutcome.apiError "RL" (some 429) none) 20000 (fun _ => 0) :
        RLRun Nat).result =
      Except.error ("POEditor API error (status 429): " ++ "RL") := by
  obtain ⟨h1, h2⟩ :=
    (claim_C3 (fun _ => OpOutcome.ok (42 : Nat)) 20000 (fun _ => 0)).2.2.2.1 42 rfl
  obtain ⟨_, h3⟩ :=
    (claim_C3 (α := Nat) (fun _ => OpOutcome.apiError "RL" (some 429) none) 20000
      (fun _ => 0)).2.2.1 "RL" none (fun _ => rfl)
  exact ⟨h1, h2, h3⟩

theorem runBatches_calls_shape {α R : Type} (op : List α → Except String R)
    (mk : List α → RemoteCall) :
    ∀ (chunks : List (List α)) (c : RemoteCall),
      c ∈ (runBatches op mk chunks).1 → ∃ b, c = mk b := by
  intro chunks
  induction chunks with
  | nil =>
    intro c hc
    simp [runBatches] at hc
  | cons ch cs ih =>
    intro c hc
    cases hop : op ch with
    | error m =>
      simp [runBatches, hop] at hc
      exact ⟨ch, hc⟩
    | ok r =>
      simp [runBatches, hop] at hc
      rcases hc with rfl | hc2
      · exact ⟨ch, rfl⟩
      · exact ih c hc2

theorem addPhase_calls_shape (oracle : ClientOracle) (plan : SyncPlan) (B : Nat) :
    ∀ c ∈ (addPhase oracle plan B).1, ∃ b, c = RemoteCall.addCall projectIdArg b := by
  intro c hc
  unfold addPhase at hc
  by_cases hl : plan.addTerms.length > 0
  · rw [if_pos hl] at hc
    exact runBatches_calls_shape _ _ _ c hc
  · rw [if_neg hl] at hc
    simp at hc

theorem updPhase_calls_shape (oracle : ClientOracle) (plan : SyncPlan) (B : Nat) :
    ∀ c ∈ (updPhase oracle plan B).1, ∃ b, c = RemoteCall.updateCall projectIdArg b := by
  intro c hc
  unfold updPhase at hc
  by_cases hl : plan.updateTerms.length > 0
  · rw [if_pos hl] at hc
    exact runBatches_calls_shape _ _ _ c hc
  · rw [if_neg hl] at hc
    simp at hc

theorem delPhase_calls_shape (oracle : ClientOracle) (plan : SyncPlan) (B : Nat) :
    ∀ c ∈ (delPhase oracle plan B).1, ∃ b, c = RemoteCall.deleteCall projectIdArg b := by
  intro c hc
  unfold delPhase at hc
  by_cases hl : plan.deleteTerms.length > 0
  · rw [if_pos hl] at hc
    exact runBatches_calls_shape _ _ _ c hc
  · rw [if_neg hl] at hc
    simp at hc

theorem executeSyncLive_cases (oracle : ClientOracle) (plan : SyncPlan) (B : Nat)
    (mt : Bool ⊕ List String) (audit : String) :
    (∃ m, (addPhase oracle plan B).2 = Except.error m
      ∧ executeSyncModel oracle plan B mt false audit =
        (⟨0, 0, 0, [], [⟨"sync", m⟩], 0, audit⟩, (addPhase oracle plan B).1))
    ∨ (∃ addRs m, (addPhase oracle plan B).2 = Except.ok addRs
      ∧ (updPhase oracle plan B).2 = Except.error m
      ∧ executeSyncModel oracle plan B mt false audit =
        (⟨addRs.foldl (fun s r => s + r.added) 0, 0, 0, [], [⟨"sync", m⟩],
          addRs.length, audit⟩,
          (addPhase oracle plan B).1 ++ (updPhase oracle plan B).1))
    ∨ (∃ addRs updRs m, (addPhase oracle plan B).2 = Except.ok addRs
      ∧ (updPhase oracle plan B).2 = Except.ok updRs
      ∧ (delPhase oracle plan B).2 = Except.error m
      ∧ executeSyncModel oracle plan B mt false audit =
        (⟨addRs.foldl (fun s r => s + r.added) 0,
          updRs.foldl (fun s r => s + r.updated) 0, 0, [], [⟨"sync", m⟩],
          addRs.length + updRs.length, audit⟩,
          (addPhase oracle plan B).1 ++ (updPhase oracle plan B).1
            ++ (delPhase oracle plan B).1))
    ∨ (∃ addRs updRs delRs, (addPhase oracle plan B).2 = Except.ok addRs
      ∧ (updPhase oracle plan B).2 = Except.ok updRs
      ∧ (delPhase oracle plan B).2 = Except.ok delRs
      ∧ executeSyncModel oracle plan B mt false audit =
        (⟨addRs.foldl (fun s r => s + r.added) 0,
          updRs.foldl (fun s r => s + r.updated) 0,
          delRs.foldl (fun s r => s + r.deleted) 0,
          (if mtTruthy mt && plan.stats.missing > 0 then resolveMtLangs mt plan else []),
          [], addRs.length + updRs.length + delRs.length, audit⟩,
          (addPhase oracle plan B).1 ++ (updPhase oracle plan B).1
            ++ (delPhase oracle plan B).1)) := by
  rcases h1 : (addPhase oracle plan B).2 with m | addRs
  · left
    exact ⟨m, rfl, by simp [executeSyncModel, h1]⟩
  · rcases h2 : (updPhase oracle plan B).2 with m | updRs
    · right; left
      exact ⟨addRs, m, rfl, rfl, by simp [executeSyncModel, h1, h2]⟩
    · rcases h3 : (delPhase oracle plan B).2 with m | delRs
      · right; right; left
        exact ⟨addRs, updRs, m, rfl, rfl, rfl, by simp [executeSyncModel, h1, h2, h3]⟩
      · right; right; right
        exact ⟨addRs, updRs, delRs, rfl, rfl, rfl, by simp [executeSyncModel, h1, h2, h3]⟩

/-- Claim C4: a dry-run `executeSync` issues no remote call and returns
created/updated/deleted equal to the plan list lengths, `mtTriggered` equal to
the explicitly supplied language list (empty when the option is a boolean),
no errors, zero rate-limit waits, and the audit identifier generated for this
invocation. -/
theorem claim_C4 (oracle : ClientOracle) (plan : SyncPlan) (batchSize : Nat)
    (mt : Bool ⊕ List String) (audit : String) :
    (executeSyncModel oracle plan batchSize mt true audit).2 = []
    ∧ (executeSyncModel oracle plan batchSize mt true audit).1.created = plan.addTerms.length
    ∧ (executeSyncModel oracle plan batchSize mt true audit).1.updated = plan.updateTerms.length
    ∧ (executeSyncModel oracle plan batchSize mt true audit).1.deleted = plan.deleteTerms.length
    ∧ (executeSyncModel oracle plan batchSize mt true audit).1.errors = []
    ∧ (executeSyncModel oracle plan batchSize mt true audit).1.rateLimitWaits = 0
    ∧ (executeSyncModel oracle plan batchSize mt true audit).1.auditLogId = audit
    ∧ (executeSyncModel oracle plan batchSize mt true audit).1.mtTriggered =
      (match mt with
        | Sum.inl _ => []
        | Sum.inr langs => langs) := by
  cases mt <;> exact ⟨rfl, rfl, rfl, rfl, rfl, rfl, rfl, rfl⟩

/-- Claim C9: in a live run, any phase failure is caught exactly once and
recorded as a single `{operation: "sync"}` error entry; the phases after the
failing one issue no calls; the coordinator returns normally; and the counts
aggregated from the phases completed before the failure are kept in the
result. -/
theorem claim_C9 (oracle : ClientOracle) (plan : SyncPlan) (B : Nat)
    (mt : Bool ⊕ List String) (audit : String) :
    (∀ e ∈ (executeSyncModel oracle plan B mt false audit).1.errors, e.operation = "sync")
    ∧ ((executeSyncModel oracle plan B mt false audit).1.errors = []
      ∨ ∃ m, (executeSyncModel oracle plan B mt false audit).1.errors = [⟨"sync", m⟩])
    ∧ (∀ m, (addPhase oracle plan B).2 = Except.error m →
        (executeSyncModel oracle plan B mt false audit).1 =
          ⟨0, 0, 0, [], [⟨"sync", m⟩], 0, audit⟩
        ∧ (executeSyncModel oracle plan B mt false audit).2 = (addPhase oracle plan B).1)
    ∧ (∀ addRs m, (addPhase oracle plan B).2 = Except.ok addRs →
        (updPhase oracle plan B).2 = Except.error m →
        (executeSyncModel oracle plan B mt false audit).1 =
          ⟨addRs.foldl (fun s r => s + r.added) 0, 0, 0, [], [⟨"sync", m⟩],
            addRs.length, audit⟩
        ∧ (executeSyncModel oracle plan B mt false audit).2 =
          (addPhase oracle plan B).1 ++ (updPhase oracle plan B).1)
    ∧ (∀ addRs updRs m, (addPhase oracle plan B).2 = Except.ok addRs →
        (updPhase oracle plan B).2 = Except.ok updRs →
        (delPhase oracle plan B).2 = Except.error m →
        (executeSyncModel oracle plan B mt false audit).1 =
          ⟨addRs.foldl (fun s r => s + r.added) 0,
            updRs.foldl (fun s r => s + r.updated) 0, 0, [], [⟨"sync", m⟩],
            addRs.length + updRs.length, audit⟩
        ∧ (executeSyncModel oracle plan B mt false audit).2 =
          (addPhase oracle plan B).1 ++ (updPhase oracle plan B).1
            ++ (delPhase oracle plan B).1) := by
  refine ⟨?_, ?_, ?_, ?_, ?_⟩
  · intro e he
    rcases executeSyncLive_cases oracle plan B mt audit with
      ⟨m, _, heq⟩ | ⟨addRs, m, _, _, heq⟩ | ⟨addRs, updRs, m, _, _, _, heq⟩ |
      ⟨addRs, updRs, delRs, _, _, _, heq⟩ <;>
      rw [heq] at he <;> simp at he <;> try rw [he]
  · rcases executeSyncLive_cases oracle plan B mt audit with
      ⟨m, _, heq⟩ | ⟨addRs, m, _, _, heq⟩ | ⟨addRs, updRs, m, _, _, _, heq⟩ |
      ⟨addRs, updRs, delRs, _, _, _, heq⟩ <;> rw [heq]
    · exact Or.inr ⟨m, rfl⟩
    · exact Or.inr ⟨m, rfl⟩
    · exact Or.inr ⟨m, rfl⟩
    · exact Or.inl rfl
  · intro m hm
    rcases executeSyncLive_cases oracle plan B mt audit with
      ⟨m', h1, heq⟩ | ⟨addRs, m', h1, _, heq⟩ | ⟨addRs, updRs, m', h1, _, _, heq⟩ |
      ⟨addRs, updRs, delRs, h1, _, _, heq⟩
    · rw [hm] at h1
      have : m' = m := (Except.error.inj h1).symm
      subst this
      rw [heq]
      exact ⟨rfl, rfl⟩
    · rw [hm] at h1
      exact absurd h1 (by simp)
    · rw [hm] at h1
      exact absurd h1 (by simp)
    · rw [hm] at h1
      exact absurd h1 (by simp)
  · intro addRs m hok hm
    rcases executeSyncLive_cases oracle plan B mt audit with
      ⟨m', h1, heq⟩ | ⟨addRs', m', h1, h2, heq⟩ | ⟨addRs', updRs, m', h1, h2, _, heq⟩ |
      ⟨addRs', updRs, delRs, h1, h2, _, heq⟩
    · rw [hok] at h1
      exact absurd h1 (by simp)
    · rw [hok] at h1
      rw [hm] at h2
      have ha : addRs' = addRs := (Except.ok.inj h1).symm
      have hmm : m' = m := (Except.error.inj h2).symm
      subst ha
      subst hmm
      rw [heq]
      exact ⟨rfl, rfl⟩
    · rw [hm] at h2
      exact absurd h2 (by simp)
    · rw [hm] at h2
      exact absurd h2 (by simp)
  · intro addRs updRs m hok1 hok2 hm
    rcases executeSyncLive_cases oracle plan B mt audit with
      ⟨m', h1, heq⟩ | ⟨addRs', m', h1, h2, heq⟩ | ⟨addRs', updRs', m', h1, h2, h3, heq⟩ |
      ⟨addRs', updRs', delRs, h1, h2, h3, heq⟩
    · rw [hok1] at h1
      exact absurd h1 (by simp)
    · rw [hok2] at h2
      exact absurd h2 (by simp)
    · rw [hok1] at h1
      rw [hok2] at h2
      rw [hm] at h3
      have ha : addRs' = addRs := (Except.ok.inj h1).symm
      have hu : updRs' = updRs := (Except.ok.inj h2).symm
      have hmm : m' = m := (Except.error.inj h3).symm
      subst ha
      subst hu
      subst hmm
      rw [heq]
      exact ⟨rfl, rfl⟩
    · rw [hm] at h3
      exact absurd h3 (by simp)

theorem chunkList_singleton {α : Type} (B : Nat) (hB : B ≠ 0) (x : α) :
    chunkList B [x] = [[x]] := by
  rw [chunkList_cons_step B hB [x] (by simp)]
  rw [List.take_of_length_le (by simp; omega), List.drop_eq_nil_of_le (by simp; omega),
    chunkList_nil]

/-- Claim C10: every remote mutation call issued by a live `executeSync` run
passes the constant string `"project_id"` as the project identifier, whatever
plan, oracle or options are supplied. -/
theorem claim_C10 (oracle : ClientOracle) (plan : SyncPlan) (B : Nat)
    (mt : Bool ⊕ List String) (dryRun : Bool) (audit : String) :
    ∀ c ∈ (executeSyncModel oracle plan B mt dryRun audit).2,
      RemoteCall.projectId c = "project_id" := by
  have haux : ∀ c ∈ (addPhase oracle plan B).1 ++ (updPhase oracle plan B).1
      ++ (delPhase oracle plan B).1, RemoteCall.projectId c = "project_id" := by
    intro c hc
    rcases List.mem_append.mp hc with hc' | hc3
    · rcases List.mem_append.mp hc' with hc1 | hc2
      · obtain ⟨b, rfl⟩ := addPhase_calls_shape oracle plan B c hc1
        rfl
      · obtain ⟨b, rfl⟩ := updPhase_calls_shape oracle plan B c hc2
        rfl
    · obtain ⟨b, rfl⟩ := delPhase_calls_shape oracle plan B c hc3
      rfl
  cases dryRun with
  | true =>
    intro c hc
    have hnil : (executeSyncModel oracle plan B mt true audit).2 = [] := by
      cases mt <;> rfl
    rw [hnil] at hc
    exact absurd hc (List.not_mem_nil c)
  | false =>
    intro c hc
    rcases executeSyncLive_cases oracle plan B mt audit with
      ⟨m, _, heq⟩ | ⟨addRs, m, _, _, heq⟩ | ⟨addRs, updRs, m, _, _, _, heq⟩ |
      ⟨addRs, updRs, delRs, _, _, _, heq⟩ <;> rw [heq] at hc <;> dsimp only at hc
    · apply haux
      rw [List.mem_append, List.mem_append]
      exact Or.inl (Or.inl hc)
    · apply haux
      rw [List.mem_append]
      exact Or.inl hc
    · exact haux c hc
    · exact haux c hc

/-- Witness for C9: with one add batch accepted (1 term added) and a failing
update phase, the live run keeps `created = 1`, records the single error
`("sync", "boom")`, performs no deletions and returns normally. -/
theorem claim_C9_witness :
    (executeSyncModel oracleUpdFail planW 10 (Sum.inl false) false "audit-1").1 =
      ⟨1, 0, 0, [], [⟨"sync", "boom"⟩], 1, "audit-1"⟩ := by
  have h1 : (addPhase oracleUpdFail planW 10).2 = Except.ok [(⟨1, 1⟩ : AddResp)] := by
    simp only [addPhase]
    rw [if_pos (show planW.addTerms.length > 0 by decide)]
    simp only [batchOperationE]
    rw [show planW.addTerms = [termT1] from rfl, chunkList_singleton 10 (by decide) termT1]
    rfl
  have h2 : (updPhase oracleUpdFail planW 10).2 = Except.error "boom" := by
    simp only [updPhase]
    rw [if_pos (show planW.updateTerms.length > 0 by decide)]
    simp only [batchOperationE]
    rw [show planW.updateTerms = [("k", (⟨some "c", none, none, none⟩ : TermUpdates))] from rfl,
      chunkList_singleton 10 (by decide) ("k", (⟨some "c", none, none, none⟩ : TermUpdates))]
    rfl
  have h := (claim_C9 oracleUpdFail planW 10 (Sum.inl false) "audit-1").2.2.2.1
    [(⟨1, 1⟩ : AddResp)] "boom" h1 h2
  exact h.1

/-- Witness for C10: the single call issued by a live run over `planAddOnly`
is an add call whose project id argument is the constant `"project_id"`. -/
theorem claim_C10_witness :
    RemoteCall.projectId (RemoteCall.addCall "project_id" [termT1]) = "project_id" := by
  have ha : addPhase oracleAllOk planAddOnly 10 =
      ([RemoteCall.addCall projectIdArg [termT1]], Except.ok [(⟨1, 1⟩ : AddResp)]) := by
    simp only [addPhase]
    rw [if_pos (show planAddOnly.addTerms.length > 0 by decide)]
    simp only [batchOperationE]
    rw [show planAddOnly.addTerms = [termT1] from rfl,
      chunkList_singleton 10 (by decide) termT1]
    rfl
  have hu : updPhase oracleAllOk planAddOnly 10 = ([], Except.ok []) := by
    simp only [updPhase]
    rw [if_neg (show ¬planAddOnly.updateTerms.length > 0 by decide)]
  have hd : delPhase oracleAllOk planAddOnly 10 = ([], Except.ok []) := by
    simp only [delPhase]
    rw [if_neg (show ¬planAddOnly.deleteTerms.length > 0 by decide)]
  have htrace : (executeSyncModel oracleAllOk planAddOnly 10 (Sum.inl false) false "audit-2").2 =
      [RemoteCall.addCall projectIdArg [termT1]] := by
    rcases executeSyncLive_cases oracleAllOk planAddOnly 10 (Sum.inl false) "audit-2" with
      ⟨m, hm, _⟩ | ⟨aR, m, _, hm, _⟩ | ⟨aR, uR, m, _, _, hm, _⟩ | ⟨aR, uR, dR, _, _, _, heq⟩
    · rw [ha] at hm
      exact absurd hm (by simp)
    · rw [hu] at hm
      exact absurd hm (by simp)
    · rw [hd] at hm
      exact absurd hm (by simp)
    · rw [heq]
      dsimp only
      rw [ha, hu, hd]
      simp
  exact claim_C10 oracleAllOk planAddOnly 10 (Sum.inl false) false "audit-2"
    (RemoteCall.addCall "project_id" [termT1])
    (by rw [htrace]; simp [projectIdArg])
